import Mathlib

/-!
Verification of the PPC Master Blaster rule engine (src/app.py) against its
natural-language specification.

Modelling conventions, used throughout this development:

* Python floats are modelled exactly as unnormalized fractions `PyNum`
  (integer numerator, natural denominator); every value built by the model has
  a positive denominator.  `PyFloat := Option PyNum`, where `none` models
  `NaN` (numpy's missing-data sentinel `np.nan`): every comparison
  (`<`, `>`, `==`) involving `NaN` is `false`, exactly as in Python.
* Strings are Lean `String`s, but all string algorithms (lower-casing,
  substring search, splitting, stripping) are re-implemented by structural
  recursion over the underlying character list, mirroring the Python
  semantics of `str.lower` / `in` / `str.split` / `str.strip` on the ASCII
  data this program handles.
* `float(...)` parsing is modelled for decimal literals (optional sign,
  digits, optional fraction part), which covers every string this program
  ever parses.
* Fallible Python code (KeyError on a missing column, ValueError from
  `float`, TypeError, IndexError) is modelled with `Except String`.
-/

/-- A Python float value, modelled as an exact (unnormalized) fraction.
All values constructed by this model have `den ≠ 0`. -/
structure PyNum where
  num : Int
  den : Nat
deriving DecidableEq, Repr

/-- A Python float-or-NaN: `none` models `NaN` (e.g. `np.nan`). -/
abbrev PyFloat : Type := Option PyNum

instance {ε α : Type} [DecidableEq ε] [DecidableEq α] : DecidableEq (Except ε α) := fun a b =>
  match a, b with
  | .ok x, .ok y => if h : x = y then .isTrue (by rw [h]) else .isFalse (by simp [h])
  | .error x, .error y => if h : x = y then .isTrue (by rw [h]) else .isFalse (by simp [h])
  | .ok _, .error _ => .isFalse (by simp)
  | .error _, .ok _ => .isFalse (by simp)

/-- Embed an integer as a Python number. -/
def pyn (n : Int) : PyNum := ⟨n, 1⟩

/-- Strict less-than on exact fractions (cross multiplication; denominators
of model-built values are positive). -/
def PyNum.lt (a b : PyNum) : Bool := a.num * (b.den : Int) < b.num * (a.den : Int)

/-- Value equality on exact fractions, Python's `==` on floats. -/
def PyNum.eqv (a b : PyNum) : Bool := a.num * (b.den : Int) == b.num * (a.den : Int)

/-- Multiplication of exact fractions. -/
def PyNum.mul (a b : PyNum) : PyNum := ⟨a.num * b.num, a.den * b.den⟩

/-- Addition of exact fractions. -/
def PyNum.add (a b : PyNum) : PyNum := ⟨a.num * (b.den : Int) + b.num * (a.den : Int), a.den * b.den⟩

/-- Python `a < b` on float-or-NaN: any comparison with NaN is `False`. -/
def pfLt : PyFloat → PyFloat → Bool
  | some a, some b => a.lt b
  | _, _ => false

/-- Python `a > b` on float-or-NaN: any comparison with NaN is `False`. -/
def pfGt : PyFloat → PyFloat → Bool
  | some a, some b => b.lt a
  | _, _ => false

/-- Python `a == b` on float-or-NaN: `NaN == x` is `False` for every `x`. -/
def pfEq : PyFloat → PyFloat → Bool
  | some a, some b => a.eqv b
  | _, _ => false

/-! Character and character-list helpers (structural replacements for the
Python string primitives used by app.py). -/

/-- The decimal digit character for `d % 10`. -/
def digitChar (d : Nat) : Char := Char.ofNat (48 + d % 10)

/-- The value of a decimal digit character, `none` on non-digits. -/
def charDigit (c : Char) : Option Nat :=
  if '0' ≤ c ∧ c ≤ '9' then some (c.toNat - 48) else none

/-- ASCII lower-casing of one character (Python `str.lower` on the ASCII
data this program handles). -/
def lowerCh (c : Char) : Char :=
  if 'A' ≤ c ∧ c ≤ 'Z' then Char.ofNat (c.toNat + 32) else c

/-- Python `str.lower` (ASCII model). -/
def pyLower (s : String) : String := String.mk (s.data.map lowerCh)

/-- Whether `pat` is a prefix of `l`. -/
def isPrefixCh : List Char → List Char → Bool
  | [], _ => true
  | _ :: _, [] => false
  | a :: as, b :: bs => a = b && isPrefixCh as bs

/-- Whether `pat` occurs as a contiguous sublist of `l`. -/
def containsCh (pat : List Char) : List Char → Bool
  | [] => isPrefixCh pat []
  | l@(_ :: t) => isPrefixCh pat l || containsCh pat t

/-- Python substring test `pat in s` (for the non-empty patterns app.py uses). -/
def containsSub (s pat : String) : Bool := containsCh pat.data s.data

/-- Split a character list on a separator character; mirrors Python
`str.split(sep)` for a one-character separator (always returns at least one
piece). -/
def splitOnCh (sep : Char) : List Char → List (List Char)
  | [] => [[]]
  | c :: t =>
    match splitOnCh sep t with
    | [] => [[]]
    | h :: r => if c = sep then [] :: h :: r else (c :: h) :: r

/-- Python whitespace for `str.strip`. -/
def isPySpace (c : Char) : Bool := c = ' ' || c = '\t' || c = '\n' || c = '\r'

/-- Python `str.strip()`: drop leading and trailing whitespace. -/
def pyStrip (s : String) : String :=
  String.mk (((s.data.dropWhile isPySpace).reverse.dropWhile isPySpace).reverse)

/-- Remove every occurrence of `pat` from `l`, left to right (Python
`str.replace(pat, '')` for non-empty `pat`); `fuel` is the list length. -/
def removeSubFuel (pat : List Char) : Nat → List Char → List Char
  | 0, l => l
  | _ + 1, [] => []
  | fuel + 1, l@(c :: t) =>
    if isPrefixCh pat l then removeSubFuel pat fuel (l.drop pat.length)
    else c :: removeSubFuel pat fuel t

/-- Python `s.replace(pat, '')` for a non-empty pattern. -/
def removeSub (s pat : String) : String := String.mk (removeSubFuel pat.data s.data.length s.data)

/-! Decimal parsing and formatting. -/

/-- The digit values of a character list; `none` if any character is not a
decimal digit. -/
def digitsVals : List Char → Option (List Nat)
  | [] => some []
  | c :: t =>
    match charDigit c, digitsVals t with
    | some d, some ds => some (d :: ds)
    | _, _ => none

/-- Parse a list of decimal digit characters (most significant first);
`none` if any character is not a digit.  The empty list parses to `0`
(callers rule out the empty-empty case). -/
def parseDigits (l : List Char) : Option Nat :=
  (digitsVals l).map (List.foldl (fun a d => 10 * a + d) 0)

/-- Python `float(...)` on an unsigned decimal literal: digits with an
optional single decimal point (at least one digit overall). -/
def parseUnsigned (l : List Char) : Option PyNum :=
  match splitOnCh '.' l with
  | [ip] =>
    if ip = [] then none
    else (parseDigits ip).map (fun n => ⟨(n : Int), 1⟩)
  | [ip, fp] =>
    if ip = [] && fp = [] then none
    else
      match parseDigits ip, parseDigits fp with
      | some i, some f => some ⟨(i : Int) * (10 ^ fp.length : Nat) + (f : Int), 10 ^ fp.length⟩
      | _, _ => none
  | _ => none

/-- Python `float(...)` on a decimal literal with an optional leading sign.
Models the calls app.py makes (it never parses exponents or `inf`). -/
def parsePyFloat (s : String) : Option PyNum :=
  match s.data with
  | [] => none
  | c :: rest =>
    if c = '-' then (parseUnsigned rest).map (fun q => ⟨-q.num, q.den⟩)
    else if c = '+' then parseUnsigned rest
    else parseUnsigned (c :: rest)

/-- Decimal digits of `n`, least significant first (`[]` for `0`);
`fuel ≥ n` makes it total. -/
def natDigitsAux : Nat → Nat → List Nat
  | 0, _ => []
  | _ + 1, 0 => []
  | fuel + 1, n + 1 => ((n + 1) % 10) :: natDigitsAux fuel ((n + 1) / 10)

/-- Decimal digits of `n`, least significant first. -/
def natDigits (n : Nat) : List Nat := natDigitsAux n n

/-- Decimal rendering of a natural number, most significant digit first. -/
def natToChars (n : Nat) : List Char :=
  if n = 0 then ['0'] else (natDigits n).reverse.map digitChar

/-- Round-half-even (banker's rounding) of the fraction `a / b` to an
integer; this is the rounding Python's `format(x, '.2f')` applies. -/
def rhe (a : Int) (b : Nat) : Int :=
  if 2 * (a - Int.fdiv a (b : Int) * (b : Int)) < (b : Int) then Int.fdiv a (b : Int)
  else if (b : Int) < 2 * (a - Int.fdiv a (b : Int) * (b : Int)) then Int.fdiv a (b : Int) + 1
  else if Int.fdiv a (b : Int) % 2 = 0 then Int.fdiv a (b : Int)
  else Int.fdiv a (b : Int) + 1

/-- Exactly two decimal digit characters for `m < 100`. -/
def twoDigitChars (m : Nat) : List Char := [digitChar (m / 10 % 10), digitChar (m % 10)]

/-- Character rendering of the non-negative hundredth-count `n`
as `n / 100` with exactly two decimals. -/
def fixed2Chars (n : Nat) : List Char := natToChars (n / 100) ++ '.' :: twoDigitChars (n % 100)

/-- Python `f"{x:.2f}"` on an exact fraction: round the value to a whole
number of hundredths (half-to-even), then print with two decimals. -/
def fmt2 (q : PyNum) : String :=
  if rhe (100 * q.num) q.den < 0 then
    String.mk ('-' :: fixed2Chars (rhe (100 * q.num) q.den).natAbs)
  else String.mk (fixed2Chars (rhe (100 * q.num) q.den).toNat)

/-- Python `f"{x:.2f}"` on float-or-NaN (`f"{nan:.2f}"` prints `nan`). -/
def pfFmt2 : PyFloat → String
  | none => "nan"
  | some q => fmt2 q

/-- Fraction digits of `a / b` (proper fraction part, `0 ≤ a < b`), by long
division, stopping at a zero remainder or after `fuel` digits. -/
def fracDigits : Nat → Nat → Nat → List Char
  | 0, _, _ => []
  | _ + 1, 0, _ => []
  | fuel + 1, a, b => digitChar (10 * a / b) :: fracDigits fuel (10 * a % b) b

/-- Python `str(...)` of a float, for the exact-fraction model: integer
part, then the fraction digits (at least one, e.g. `45.0`).  Faithful to
CPython's `repr` on the terminating decimals this program produces. -/
def pyNumStr (q : PyNum) : String :=
  let sign : List Char := if q.num < 0 then ['-'] else []
  let a := q.num.natAbs
  let b := q.den
  let ip := a / b
  let rem := a % b
  let frac := if rem = 0 then ['0'] else fracDigits 30 rem b
  String.mk (sign ++ natToChars ip ++ '.' :: frac)

/-- Python `str(...)` of a float-or-NaN (`str(nan)` is `"nan"`). -/
def pfStr : PyFloat → String
  | none => "nan"
  | some q => pyNumStr q

/-! The data model: cells, tables, configuration. -/

/-- One cell of the uploaded table: a string, or a float-or-NaN (pandas
reads missing cells of a column as `NaN`). -/
inductive Cell where
  | cs (s : String)
  | cf (x : PyFloat)
deriving DecidableEq, Repr

/-- Python `str(...)` of a cell value. -/
def cellStr : Cell → String
  | .cs s => s
  | .cf x => pfStr x

/-- The uploaded table after `pd.read_csv(..., skiprows=2)`: the header
names and the data rows (each row aligned with `cols`). -/
structure Table where
  cols : List String
  rows : List (List Cell)

/-- The audit configuration from the sidebar (app.py lines 18-25):
`cpa_threshold` and `min_impr` are numeric inputs, `brand_name` and
`competitor_names` free-text inputs. -/
structure Config where
  cpa_threshold : PyNum
  min_impr : PyNum
  brand_name : String
  competitor_names : String

/-! The Field Normalizer: app.py lines 28-48. -/

/-- app.py line 28-30 `clean_currency`: on a string, strip `,`, `AUD`, `$`
and whitespace and parse as a float (a `ValueError` is a run failure);
non-strings pass through unchanged. -/
def clean_currency : Cell → Except String Cell
  | .cs s =>
    match parsePyFloat (pyStrip (removeSub (removeSub (removeSub s ",") "AUD") "$")) with
    | some q => .ok (.cf (some q))
    | none => .error "ValueError: could not convert string to float"
  | .cf x => .ok (.cf x)

/-- app.py lines 32-36 `clean_percent`: a string containing `--` maps to
`0.0`; otherwise strip `%` and whitespace and parse; non-strings pass
through. -/
def clean_percent : Cell → Except String Cell
  | .cs s =>
    if containsSub s "--" then .ok (.cf (some (pyn 0)))
    else
      match parsePyFloat (pyStrip (removeSub s "%")) with
      | some q => .ok (.cf (some q))
      | none => .error "ValueError: could not convert string to float"
  | .cf x => .ok (.cf x)

/-- app.py lines 38-42 `clean_number`: a string containing `--` maps to the
integer `0`; otherwise strip `,` and whitespace and parse; non-strings pass
through. -/
def clean_number : Cell → Except String Cell
  | .cs s =>
    if containsSub s "--" then .ok (.cf (some (pyn 0)))
    else
      match parsePyFloat (pyStrip (removeSub s ",")) with
      | some q => .ok (.cf (some q))
      | none => .error "ValueError: could not convert string to float"
  | .cf x => .ok (.cf x)

/-- app.py lines 44-48 `clean_qs`: a string containing `--` maps to
`np.nan` (the missing sentinel); otherwise parse the text before the first
`/` as a float; non-strings pass through. -/
def clean_qs : Cell → Except String Cell
  | .cs s =>
    if containsSub s "--" then .ok (.cf none)
    else
      match splitOnCh '/' s.data with
      | [] => .error "ValueError: could not convert string to float"
      | h :: _ =>
        match parsePyFloat (String.mk h) with
        | some q => .ok (.cf (some q))
        | none => .error "ValueError: could not convert string to float"
  | .cf x => .ok (.cf x)

/-! The Rule Engine: app.py lines 106-162. -/

/-- One finding appended by the rule engine (the dict literals of app.py). -/
structure Finding where
  priority : String
  issue : String
  adGroup : Cell
  keyword : Cell
  metric : String
  fix : String
deriving DecidableEq, Repr

/-- The per-row values the engine extracts at app.py lines 111-118. -/
structure EngineRow where
  kwLower : String
  keywordCell : Cell
  adGroup : Cell
  matchType : String
  cost : PyFloat
  conv : PyFloat
  qs : PyFloat
  impr : PyFloat
  ctr : PyFloat
deriving DecidableEq, Repr

/-- The metric text of a Cash-Incinerator-style finding:
`f"${cost:.2f} Spend / 0 Leads"` (app.py lines 124 and 144). -/
def incineratorMetric (cost : PyFloat) : String :=
  "$" ++ pfFmt2 cost ++ " Spend / 0 Leads"

/-- app.py line 108: `[c.strip().lower() for c in competitor_names.split(',') if c.strip()]`. -/
def parseCompetitors (s : String) : List String :=
  ((splitOnCh ',' s.data).filter (fun c => pyStrip (String.mk c) ≠ "")).map
    (fun c => pyLower (pyStrip (String.mk c)))

/-- Rule 1, app.py lines 120-126 (Cash Incinerator):
`conv == 0 and cost > cpa_threshold`. -/
def cashIncineratorRule (cfg : Config) (row : EngineRow) : List Finding :=
  if pfEq row.conv (some (pyn 0)) && pfGt row.cost (some cfg.cpa_threshold) then
    [{ priority := "HIGH", issue := "Cash Incinerator", adGroup := row.adGroup,
       keyword := row.keywordCell, metric := incineratorMetric row.cost,
       fix := "PAUSE immediately." }]
  else []

/-- Rule 2, app.py lines 128-136 (Brand Defense Leak):
`brand_name and brand_name.lower() in kw`, then
`(qs < 8 and impr > 20) or (ctr < 5.0 and impr > 20)`. -/
def brandDefenseRule (cfg : Config) (row : EngineRow) : List Finding :=
  if cfg.brand_name ≠ "" && containsSub row.kwLower (pyLower cfg.brand_name) then
    if (pfLt row.qs (some (pyn 8)) && pfGt row.impr (some (pyn 20))) ||
       (pfLt row.ctr (some (pyn 5)) && pfGt row.impr (some (pyn 20))) then
      [{ priority := "HIGH", issue := "Brand Defense Leak", adGroup := row.adGroup,
         keyword := row.keywordCell,
         metric := "QS: " ++ pfStr row.qs ++ " | CTR: " ++ pfStr row.ctr ++ "%",
         fix := "Competitors may be stealing traffic. Improve Ad Copy." }]
    else []
  else []

/-- Rule 3, app.py lines 138-146 (Competitor Ego Waste):
`any(comp in kw for comp in competitors)`, then
`conv == 0 and cost > (cpa_threshold * 0.5)`. -/
def competitorWasteRule (cfg : Config) (row : EngineRow) : List Finding :=
  if (parseCompetitors cfg.competitor_names).any (fun comp => containsSub row.kwLower comp) then
    if pfEq row.conv (some (pyn 0)) &&
       pfGt row.cost (some (cfg.cpa_threshold.mul ⟨1, 2⟩)) then
      [{ priority := "MED", issue := "Competitor Ego Waste", adGroup := row.adGroup,
         keyword := row.keywordCell, metric := incineratorMetric row.cost,
         fix := "Stop bidding on competitors. It's too expensive." }]
    else []
  else []

/-- Rule 4, app.py lines 148-154 (Broad Match Trap):
`"broad" in match_type.lower() and cost > 0`. -/
def broadMatchRule (_cfg : Config) (row : EngineRow) : List Finding :=
  if containsSub (pyLower row.matchType) "broad" && pfGt row.cost (some (pyn 0)) then
    [{ priority := "HIGH", issue := "Broad Match Trap", adGroup := row.adGroup,
       keyword := row.keywordCell, metric := "Broad Match",
       fix := "Change to Phrase Match." }]
  else []

/-- Rule 5, app.py lines 156-162 (Quality Score Anchor):
`qs < 3 and impr > min_impr`. -/
def qualityScoreAnchorRule (cfg : Config) (row : EngineRow) : List Finding :=
  if pfLt row.qs (some (pyn 3)) && pfGt row.impr (some cfg.min_impr) then
    [{ priority := "HIGH", issue := "Quality Score Anchor", adGroup := row.adGroup,
       keyword := row.keywordCell, metric := "QS: " ++ pfStr row.qs ++ "/10",
       fix := "Pause or New Ad Group." }]
  else []

/-- The findings one row contributes, in source order of the five rules in
the loop body (app.py lines 110-162). -/
def rowFindings (cfg : Config) (row : EngineRow) : List Finding :=
  cashIncineratorRule cfg row ++ brandDefenseRule cfg row ++ competitorWasteRule cfg row ++
    broadMatchRule cfg row ++ qualityScoreAnchorRule cfg row

/-! The Findings Aggregator sort: app.py lines 173-175 build a `SortKey`
column with `priority_map = {"HIGH": 1, "MED": 2, "LOW": 3}` and call
`results_df.sort_values('SortKey')`.  pandas `sort_values` with its default
`kind='quicksort'` calls `nargsort`, which argsorts the non-NaN keys with
numpy's introsort (`numpy/core/src/npysort/quicksort.c.src`, `aquicksort_`:
median-of-3 quicksort, insertion sort below a 16-element cutoff, heapsort
beyond a depth limit) and appends NaN-key positions at the end.  That
algorithm is embedded here, on the portable (non-SIMD) numpy code path,
with explicit fuel so every function is structurally recursive. -/

/-- The key of index entry `i`: `v[tosort[i]]` in the numpy source. -/
def keyOf (v : List Int) (i : Nat) : Int := v.getD i 0

/-- Entry `i` of the index array. -/
def lget (t : List Nat) (i : Nat) : Nat := t.getD i 0

/-- Swap entries `i` and `j` of the index array. -/
def lswap (t : List Nat) (i j : Nat) : List Nat :=
  (t.set i (lget t j)).set j (lget t i)

/-- Insert index `i` into an ascending index list, after all entries with a
key less than or equal to its own (the net effect of the shift loop of
numpy's insertion sort, which shifts while `v[vi] < v[*pk]`). -/
def insIdx (v : List Int) (i : Nat) : List Nat → List Nat
  | [] => [i]
  | j :: t => if keyOf v i < keyOf v j then i :: j :: t else j :: insIdx v i t

/-- Left-to-right insertion pass: numpy's insertion sort processes `pi`
from `pl+1` to `pr`, inserting each entry into the sorted prefix. -/
def insRun (v : List Int) : List Nat → List Nat → List Nat
  | acc, [] => acc
  | acc, i :: rest => insRun v (insIdx v i acc) rest

/-- Insertion-sort the segment `[pl..pr]` of the index array in place. -/
def insSeg (v : List Int) (t : List Nat) (pl pr : Nat) : List Nat :=
  t.take pl ++ insRun v [] ((t.drop pl).take (pr + 1 - pl)) ++ t.drop (pr + 1)

/-- One sift of numpy's `aheapsort_` (1-based heap `a`, `a[k] = seg[k-1]`):
walk `tmp` down from `i` with child `j`, moving larger children up;
returns the updated heap and the hole index. -/
def heapSift (v : List Int) (n : Nat) (tmp : Nat) : Nat → List Nat → Nat → Nat → (List Nat × Nat)
  | 0, seg, i, _ => (seg, i)
  | fuel + 1, seg, i, j =>
    if j ≤ n then
      let j := if j < n && keyOf v (lget seg (j - 1)) < keyOf v (lget seg j) then j + 1 else j
      if keyOf v tmp < keyOf v (lget seg (j - 1)) then
        heapSift v n tmp fuel (seg.set (i - 1) (lget seg (j - 1))) j (j + j)
      else (seg, i)
    else (seg, i)

/-- Heapify phase of `aheapsort_`: `l` runs from `n >> 1` down to `1`. -/
def heapBuild (v : List Int) (n : Nat) : Nat → List Nat → List Nat
  | 0, seg => seg
  | l + 1, seg =>
    let tmp := lget seg l
    let (seg', i) := heapSift v n tmp (n + 2) seg (l + 1) (2 * (l + 1))
    heapBuild v n l (seg'.set (i - 1) tmp)

/-- Extraction phase of `aheapsort_`: repeatedly move the root to the end
of the shrinking heap. -/
def heapExtract (v : List Int) : Nat → List Nat → List Nat
  | 0, seg => seg
  | 1, seg => seg
  | m + 2, seg =>
    let tmp := lget seg (m + 1)
    let seg := seg.set (m + 1) (lget seg 0)
    let (seg', i) := heapSift v (m + 1) tmp (m + 3) seg 1 2
    heapExtract v (m + 1) (seg'.set (i - 1) tmp)

/-- numpy `aheapsort_` applied to the segment `[pl..pr]` of the index
array (the `aheapsort_(vv, pl, pr - pl + 1)` call of `aquicksort_`). -/
def aheapsortSeg (v : List Int) (t : List Nat) (pl pr : Nat) : List Nat :=
  let len := pr + 1 - pl
  let seg := (t.drop pl).take len
  let seg := heapExtract v len (heapBuild v len (len / 2) seg)
  t.take pl ++ seg ++ t.drop (pr + 1)

/-- The `do ++pi; while (LT(v[*pi], vp));` scan of the partition loop. -/
def scanR (v : List Int) (vp : Int) (t : List Nat) : Nat → Nat → Nat
  | 0, pi => pi + 1
  | fuel + 1, pi =>
    let pi' := pi + 1
    if keyOf v (lget t pi') < vp then scanR v vp t fuel pi' else pi'

/-- The `do --pj; while (LT(vp, v[*pj]));` scan of the partition loop. -/
def scanL (v : List Int) (vp : Int) (t : List Nat) : Nat → Nat → Nat
  | 0, pj => pj - 1
  | fuel + 1, pj =>
    let pj' := pj - 1
    if vp < keyOf v (lget t pj') then scanL v vp t fuel pj' else pj'

/-- The cross-and-swap loop of numpy's quicksort partition; returns the
updated index array and the crossing point `pi`. -/
def partLoop (v : List Int) (vp : Int) (sf : Nat) : Nat → List Nat → Nat → Nat → (List Nat × Nat)
  | 0, t, pi, _ => (t, pi)
  | fuel + 1, t, pi, pj =>
    let pi' := scanR v vp t sf pi
    let pj' := scanL v vp t sf pj
    if pj' ≤ pi' then (t, pi')
    else partLoop v vp sf fuel (lswap t pi' pj') pi' pj'

/-- One full partition of `aquicksort_` on segment `[pl..pr]`:
median-of-3 pivot selection, pivot parked at `pr-1`, crossing scans, and
the final swap of the crossing point with `pr-1`. -/
def partitionStep (v : List Int) (t : List Nat) (pl pr : Nat) : (List Nat × Nat) :=
  let pm := pl + (pr - pl) / 2
  let t := if keyOf v (lget t pm) < keyOf v (lget t pl) then lswap t pm pl else t
  let t := if keyOf v (lget t pr) < keyOf v (lget t pm) then lswap t pr pm else t
  let t := if keyOf v (lget t pm) < keyOf v (lget t pl) then lswap t pm pl else t
  let vp := keyOf v (lget t pm)
  let pj := pr - 1
  let t := lswap t pm pj
  let (t, pi) := partLoop v vp (pr + 2) (pr - pl + 2) t pl pj
  let t := lswap t pi (pr - 1)
  (t, pi)

/-- Result of the inner `while ((pr - pl) > SMALL_QUICKSORT)` loop: either
the segment became small (insertion sort follows), or the depth limit
fired and the segment was heapsorted. -/
inductive WhileRes where
  | small (t : List Nat) (pl pr : Nat)
  | heaped (t : List Nat)

/-- The partition loop of `aquicksort_` (`SMALL_QUICKSORT = 15`): partition
while the segment holds more than 16 entries, pushing the larger half on
the stack; `depth` is the remaining introsort depth budget. -/
def aqsWhile (v : List Int) : Nat → List Nat → Nat → Nat → Int → List (Nat × Nat) →
    (WhileRes × Int × List (Nat × Nat))
  | 0, t, pl, pr, depth, stack => (.small t pl pr, depth, stack)
  | fuel + 1, t, pl, pr, depth, stack =>
    if pr - pl > 15 then
      if depth < 0 then (.heaped (aheapsortSeg v t pl pr), depth - 1, stack)
      else
        let (t', pi) := partitionStep v t pl pr
        if pi - pl < pr - pi then
          aqsWhile v fuel t' pl (pi - 1) (depth - 1) ((pi + 1, pr) :: stack)
        else
          aqsWhile v fuel t' (pi + 1) pr (depth - 1) ((pl, pi - 1) :: stack)
    else (.small t pl pr, depth, stack)

/-- The outer `for (;;)` loop of `aquicksort_`: shrink the segment, sort
the small remainder by insertion (or the whole segment by heapsort when the
depth limit fires), then pop the next segment from the stack. -/
def aqsOuter (v : List Int) : Nat → List Nat → Nat → Nat → Int → List (Nat × Nat) → List Nat
  | 0, t, _, _, _, _ => t
  | fuel + 1, t, pl, pr, depth, stack =>
    match aqsWhile v (pr - pl + 2) t pl pr depth stack with
    | (.small t' pl' pr', d', stack') =>
      let t'' := insSeg v t' pl' pr'
      match stack' with
      | [] => t''
      | (a, b) :: rest => aqsOuter v fuel t'' a b d' rest
    | (.heaped t', d', stack') =>
      match stack' with
      | [] => t'
      | (a, b) :: rest => aqsOuter v fuel t' a b d' rest

/-- Floor of the base-2 logarithm (`npy_get_msb`), with fuel. -/
def natLog2Aux : Nat → Nat → Nat
  | 0, _ => 0
  | fuel + 1, n => if 2 ≤ n then natLog2Aux fuel (n / 2) + 1 else 0

/-- Floor of the base-2 logarithm (`npy_get_msb`). -/
def natLog2 (n : Nat) : Nat := natLog2Aux n n

/-- numpy `np.argsort(v, kind='quicksort')` on an integer array: the
`aquicksort_` introsort with initial depth budget `2 * npy_get_msb(n)`. -/
def aquicksortArg (v : List Int) : List Nat :=
  let n := v.length
  if n = 0 then []
  else aqsOuter v (2 * n + 4) (List.range n) 0 (n - 1) (2 * (natLog2 n : Int)) []

/-- app.py line 173: `priority_map = {"HIGH": 1, "MED": 2, "LOW": 3}`;
`Series.map` yields NaN (`none`) for any other priority text. -/
def priority_map (p : String) : Option Int :=
  if p = "HIGH" then some 1 else if p = "MED" then some 2 else
  if p = "LOW" then some 3 else none

/-- pandas `nargsort` (the engine of `sort_values(..., kind='quicksort')`):
argsort the non-NaN keys with numpy's introsort and append the NaN
positions at the end (`na_position='last'`). -/
def nargsort (keys : List (Option Int)) : List Nat :=
  (aquicksortArg (((List.range keys.length).filter
      (fun i => (keys.getD i none).isSome)).map (fun i => (keys.getD i none).getD 0))).map
    (fun k => ((List.range keys.length).filter
      (fun i => (keys.getD i none).isSome)).getD k 0) ++
  (List.range keys.length).filter (fun i => (keys.getD i none).isNone)

/-- app.py lines 173-175: build the `SortKey` column from the priority
text and reorder the findings table by `sort_values('SortKey')`. -/
def sortFindings (fs : List Finding) : List Finding :=
  (nargsort (fs.map (fun f => priority_map f.priority))).filterMap (fun i => fs[i]?)

/-- The sort key of the finding at position `i` (its priority rank). -/
def findingKey (fs : List Finding) (i : Nat) : Int :=
  (((fs.map (fun f => priority_map f.priority)).getD i none)).getD 0

/-- The strict lexicographic order on index entries: smaller key first,
ties broken by the original position.  A sorted-and-stable output is
exactly one that is pairwise ordered by this relation. -/
abbrev lexRel (v : List Int) (i j : Nat) : Prop :=
  keyOf v i < keyOf v j ∨ (keyOf v i = keyOf v j ∧ i < j)

/-! The full pipeline: app.py lines 93-214. -/

/-- Position of a column name in the header list. -/
def colIndex : List String → String → Option Nat
  | [], _ => none
  | c :: rest, name => if c = name then some 0 else (colIndex rest name).map (· + 1)

/-- `row[name]`: the cell of `r` under column `name` (`none` models the
`KeyError` raised when the column is absent). -/
def rowGet (cols : List String) (r : List Cell) (name : String) : Option Cell :=
  (colIndex cols name).bind (fun i => r[i]?)

/-- `row[name]` as an `Except`, failing with a `KeyError` like Python. -/
def getCol (cols : List String) (r : List Cell) (name : String) : Except String Cell :=
  match rowGet cols r name with
  | some c => .ok c
  | none => .error ("KeyError: " ++ name)

/-- app.py line 96 `df['Keyword'].notna()` for one row: `False` exactly on
a NaN cell. -/
def keywordNotna (cols : List String) (r : List Cell) : Bool :=
  match rowGet cols r "Keyword" with
  | some (.cf none) => false
  | some _ => true
  | none => false

/-- Apply a cleaning function to the cell at `idx` of one row. -/
def cleanCell (f : Cell → Except String Cell) (idx : Nat) (r : List Cell) :
    Except String (List Cell) :=
  match r[idx]? with
  | none => .ok r
  | some c => (f c).map (fun c' => r.set idx c')

/-- `df_clean[col].apply(func)`: clean one column of every row, in row
order, stopping at the first `ValueError`. -/
def cleanRows (f : Cell → Except String Cell) (idx : Nat) :
    List (List Cell) → Except String (List (List Cell))
  | [] => .ok []
  | r :: rest => do
    let r' ← cleanCell f idx r
    let rest' ← cleanRows f idx rest
    .ok (r' :: rest')

/-- app.py lines 99-102: the cleaning map, in dict insertion order. -/
def cols_map : List (String × (Cell → Except String Cell)) :=
  [("Cost", clean_currency), ("Conversions", clean_number), ("Impr.", clean_number),
   ("CTR", clean_percent), ("Quality Score", clean_qs)]

/-- app.py lines 103-104: clean each mapped column that is present,
silently skipping absent columns (`if col in df_clean.columns`). -/
def cleanCols (cols : List String) :
    List (String × (Cell → Except String Cell)) → List (List Cell) →
    Except String (List (List Cell))
  | [], rows => .ok rows
  | (name, f) :: rest, rows =>
    match colIndex cols name with
    | none => cleanCols cols rest rows
    | some idx => do
      let rows' ← cleanRows f idx rows
      cleanCols cols rest rows'

/-- A numeric engine field.  After the cleaning pass these cells are always
floats; a string here would make Python's later `<`-comparison raise a
`TypeError`, modelled as a failure at extraction. -/
def cellToFloat : Cell → Except String PyFloat
  | .cf x => .ok x
  | .cs _ => .error "TypeError: str and float comparison"

/-- app.py lines 111-118: extract the engine fields of one row, in source
order (the first absent column raises the `KeyError`). -/
def extractRow (cols : List String) (r : List Cell) : Except String EngineRow := do
  let kwCell ← getCol cols r "Keyword"
  let adGroup := if (colIndex cols "Ad group").isSome then
      match rowGet cols r "Ad group" with
      | some c => c
      | none => Cell.cs "Unknown"
    else Cell.cs "Unknown"
  let mtCell ← getCol cols r "Match type"
  let costCell ← getCol cols r "Cost"
  let cost ← cellToFloat costCell
  let convCell ← getCol cols r "Conversions"
  let conv ← cellToFloat convCell
  let qsCell ← getCol cols r "Quality Score"
  let qs ← cellToFloat qsCell
  let imprCell ← getCol cols r "Impr."
  let impr ← cellToFloat imprCell
  let ctrCell ← getCol cols r "CTR"
  let ctr ← cellToFloat ctrCell
  .ok { kwLower := pyLower (cellStr kwCell), keywordCell := kwCell, adGroup := adGroup,
        matchType := cellStr mtCell, cost := cost, conv := conv, qs := qs,
        impr := impr, ctr := ctr }

/-- app.py lines 110-162: the `iterrows` loop, collecting the findings of
every row in row order. -/
def runEngine (cfg : Config) (cols : List String) :
    List (List Cell) → Except String (List Finding)
  | [] => .ok []
  | r :: rest => do
    let er ← extractRow cols r
    let tail ← runEngine cfg cols rest
    .ok (rowFindings cfg er ++ tail)

/-- app.py line 179 `df_clean['Cost'].sum()`: pandas sum over the Cost
column, skipping NaN cells. -/
def sumAux (idx : Nat) : List (List Cell) → PyNum → Except String PyNum
  | [], acc => .ok acc
  | r :: rest, acc =>
    match r[idx]? with
    | some (.cf (some q)) => sumAux idx rest (acc.add q)
    | some (.cf none) => sumAux idx rest acc
    | some (.cs _) => .error "TypeError: unsupported operand in sum"
    | none => sumAux idx rest acc

/-- app.py line 179: total spend analyzed. -/
def sumCost (cols : List String) (rows : List (List Cell)) : Except String PyNum :=
  match colIndex cols "Cost" with
  | none => .error "KeyError: Cost"
  | some idx => sumAux idx rows (pyn 0)

/-- app.py line 193: the lost-spend extraction
`float(x.split('$')[1].split(' ')[0])` on one metric string. -/
def lostSpendOf (m : String) : Except String PyNum :=
  match splitOnCh '$' m.data with
  | _ :: p1 :: _ =>
    match splitOnCh ' ' p1 with
    | w :: _ =>
      match parsePyFloat (String.mk w) with
      | some q => .ok q
      | none => .error "ValueError: could not convert string to float"
    | [] => .error "ValueError: could not convert string to float"
  | _ => .error "IndexError: list index out of range"

/-- app.py lines 191-194: the Top Cash Incinerators chart parses the
metric text of every Cash Incinerator finding; a parse failure fails the
run. -/
def checkIncinerators : List Finding → Except String Unit
  | [] => .ok ()
  | f :: rest =>
    if f.issue = "Cash Incinerator" then do
      let _ ← lostSpendOf f.metric
      checkIncinerators rest
    else checkIncinerators rest

/-- The observable outcome of one run: the error banner (app.py line 214),
the no-issues success banner (line 211), or the rendered report (sorted
findings, total spend analyzed, issue count). -/
inductive RunOutcome where
  | failure (msg : String)
  | cleanSuccess
  | report (findings : List Finding) (totalSpend : PyNum) (issueCount : Nat)
deriving DecidableEq, Repr

/-- app.py lines 95-211, the body of the `try`: filter keyword-less rows
(line 96 raises `KeyError` when the `Keyword` column is absent), clean the
mapped columns, run the rule engine, then either the success banner or the
sorted report with its summary numbers (total spend, issue count, and the
lost-spend chart parse). -/
def pipelineE (cfg : Config) (t : Table) : Except String RunOutcome :=
  match colIndex t.cols "Keyword" with
  | none => .error "KeyError: Keyword"
  | some _ =>
    (cleanCols t.cols cols_map (t.rows.filter (keywordNotna t.cols))).bind fun cleaned =>
      (runEngine cfg t.cols cleaned).bind fun findings =>
        if findings.isEmpty then .ok .cleanSuccess
        else
          (sumCost t.cols cleaned).bind fun total =>
            (checkIncinerators (sortFindings findings)).bind fun _ =>
              .ok (.report (sortFindings findings) total (sortFindings findings).length)

/-- app.py lines 93-214: the whole guarded run; any exception becomes the
error banner and no report is emitted. -/
def runPipeline (cfg : Config) (t : Table) : RunOutcome :=
  match pipelineE cfg t with
  | .ok r => r
  | .error e => .failure e

/-! The spreadsheet row styling: app.py lines 70-74. -/

/-- The three cell formats of `generate_excel`. -/
inductive XlsxFmt where
  | high
  | med
  | normal
deriving DecidableEq, Repr

/-- app.py lines 71-74: pick a row format from the priority text
(`"HIGH" in str(priority)`, then `"MED"`, else plain). -/
def rowFmt (priority : String) : XlsxFmt :=
  if containsSub priority "HIGH" then .high
  else if containsSub priority "MED" then .med
  else .normal

/-! The canonical six-rule set of the specification (section 4.2). -/

/-- Modelled from the spec: the Click Repellent rule, the sixth rule of
the canonical rule set of section 4.2, is not present in src/app.py (which
implements the first five canonical rules); it belongs to a sibling
variant of the engine that is not under src/.  Spec row:
predicate `ctr < 1.0 AND impressions > (min_impressions x 2)`, priority
MED, metric text the CTR value, fix text "Rewrite ad headlines". -/
def clickRepellentRule (cfg : Config) (row : EngineRow) : List Finding :=
  if pfLt row.ctr (some (pyn 1)) && pfGt row.impr (some (cfg.min_impr.mul ⟨2, 1⟩)) then
    [{ priority := "MED", issue := "Click Repellent", adGroup := row.adGroup,
       keyword := row.keywordCell, metric := "CTR: " ++ pfStr row.ctr ++ "%",
       fix := "Rewrite ad headlines" }]
  else []

/-- The canonical rule set of spec section 4.2, in evaluation order: the
five rules of src/app.py followed by the spec-modelled Click Repellent. -/
def canonicalRuleList : List (Config → EngineRow → List Finding) :=
  [cashIncineratorRule, brandDefenseRule, competitorWasteRule, broadMatchRule,
   qualityScoreAnchorRule, clickRepellentRule]

/-- Findings of one row under the canonical six-rule set. -/
def canonicalRowFindings (cfg : Config) (row : EngineRow) : List Finding :=
  (canonicalRuleList.map (fun rule => rule cfg row)).flatten

/-! Concrete fixtures, used by the witness theorems below. -/

/-- A concrete configuration: CPA threshold 30, significance threshold 50,
brand `Acme`, two competitors. -/
def cfgT : Config := ⟨pyn 30, pyn 50, "Acme", "rivalco, other"⟩

/-- A concrete engine row: brand keyword, cost 45, no conversions, missing
quality score, 1000 impressions, CTR 2%. -/
def rowT : EngineRow :=
  { kwLower := "acme shoes", keywordCell := .cs "Acme Shoes", adGroup := .cs "AG",
    matchType := "Exact match", cost := some (pyn 45), conv := some (pyn 0),
    qs := none, impr := some (pyn 1000), ctr := some (pyn 2) }

/-- A concrete engine row with CTR 0.5% and 101 impressions. -/
def rowT2 : EngineRow :=
  { rowT with ctr := some ⟨1, 2⟩, qs := some (pyn 9), impr := some (pyn 101),
              conv := some (pyn 1) }

/-- A concrete two-row table with every required column. -/
def tblT : Table :=
  { cols := ["Keyword", "Match type", "Cost", "Conversions", "Impr.", "CTR",
             "Quality Score", "Ad group"],
    rows := [[.cs "acme shoes", .cs "Exact match", .cs "$45.00", .cs "0", .cs "1,000",
              .cs "2.00%", .cs " --", .cs "AG1"],
             [.cs "blue widgets", .cs "Broad match", .cs "$5.00", .cs "2", .cs "40",
              .cs "6.00%", .cs "9/10", .cs "AG2"]] }

/-- A concrete table whose single row has a missing (NaN) keyword. -/
def tblKW : Table := { cols := ["Keyword"], rows := [[Cell.cf none]] }

/-- The required columns of the input table (spec section 6). -/
def requiredCols : List String :=
  ["Keyword", "Match type", "Cost", "Conversions", "Impr.", "CTR", "Quality Score"]

/-- A concrete table lacking the required `Cost` column whose single row
has a missing keyword. -/
def tblNoCostEmpty : Table :=
  { cols := ["Keyword", "Match type", "Conversions", "Impr.", "CTR", "Quality Score"],
    rows := [[.cf none, .cs "Exact match", .cs "0", .cs "10", .cs "1.00%", .cs "5/10"]] }

/-- A concrete table lacking the required `Cost` column with one surviving
keyword row. -/
def tblNoCost : Table :=
  { cols := ["Keyword", "Match type", "Conversions", "Impr.", "CTR", "Quality Score"],
    rows := [[.cs "kw one", .cs "Exact match", .cs "0", .cs "10", .cs "1.00%", .cs "5/10"]] }

/-- A Cash Incinerator finding for keyword `k` (all seventeen findings of
the sort counterexample have equal priority `HIGH`). -/
def fsHigh (k : String) : Finding :=
  { priority := "HIGH", issue := "Cash Incinerator", adGroup := .cs "AG",
    keyword := .cs k, metric := incineratorMetric (some (pyn 45)),
    fix := "PAUSE immediately." }

/-- Seventeen findings of equal priority, in input order `k00 .. k16`. -/
def fs17 : List Finding :=
  (["k00", "k01", "k02", "k03", "k04", "k05", "k06", "k07", "k08", "k09", "k10",
    "k11", "k12", "k13", "k14", "k15", "k16"]).map fsHigh

/-- One already-cleaned data row aligned with the columns of `tblT`. -/
def cleanRowsT : List (List Cell) :=
  [[.cs "acme shoes", .cs "Exact match", .cf (some (pyn 45)), .cf (some (pyn 0)),
    .cf (some (pyn 1000)), .cf (some (pyn 2)), .cf none, .cs "AG1"]]

/-- The engine row the extraction step produces from `cleanRowsT`. -/
def rowTC : EngineRow :=
  { kwLower := "acme shoes", keywordCell := .cs "acme shoes", adGroup := .cs "AG1",
    matchType := "Exact match", cost := some (pyn 45), conv := some (pyn 0),
    qs := none, impr := some (pyn 1000), ctr := some (pyn 2) }

/-! Helper lemmas about the five rules. -/

theorem mem_cashIncineratorRule {cfg : Config} {row : EngineRow} {f : Finding}
    (h : f ∈ cashIncineratorRule cfg row) :
    f.priority = "HIGH" ∧ f.issue = "Cash Incinerator" ∧
      f.metric = incineratorMetric row.cost ∧
      (pfEq row.conv (some (pyn 0)) && pfGt row.cost (some cfg.cpa_threshold)) = true := by
  unfold cashIncineratorRule at h
  split at h
  · simp only [List.mem_singleton] at h
    subst h
    exact ⟨rfl, rfl, rfl, by assumption⟩
  · simp at h

theorem mem_brandDefenseRule {cfg : Config} {row : EngineRow} {f : Finding}
    (h : f ∈ brandDefenseRule cfg row) :
    f.priority = "HIGH" ∧ f.issue = "Brand Defense Leak" ∧
      ((pfLt row.qs (some (pyn 8)) && pfGt row.impr (some (pyn 20))) ||
        (pfLt row.ctr (some (pyn 5)) && pfGt row.impr (some (pyn 20)))) = true := by
  unfold brandDefenseRule at h
  split at h
  · split at h
    · simp only [List.mem_singleton] at h
      subst h
      exact ⟨rfl, rfl, by assumption⟩
    · simp at h
  · simp at h

theorem mem_competitorWasteRule {cfg : Config} {row : EngineRow} {f : Finding}
    (h : f ∈ competitorWasteRule cfg row) :
    f.priority = "MED" ∧ f.issue = "Competitor Ego Waste" := by
  unfold competitorWasteRule at h
  split at h
  · split at h
    · simp only [List.mem_singleton] at h
      subst h
      exact ⟨rfl, rfl⟩
    · simp at h
  · simp at h

theorem mem_broadMatchRule {cfg : Config} {row : EngineRow} {f : Finding}
    (h : f ∈ broadMatchRule cfg row) :
    f.priority = "HIGH" ∧ f.issue = "Broad Match Trap" := by
  unfold broadMatchRule at h
  split at h
  · simp only [List.mem_singleton] at h
    subst h
    exact ⟨rfl, rfl⟩
  · simp at h

theorem mem_qualityScoreAnchorRule {cfg : Config} {row : EngineRow} {f : Finding}
    (h : f ∈ qualityScoreAnchorRule cfg row) :
    f.priority = "HIGH" ∧ f.issue = "Quality Score Anchor" ∧
      (pfLt row.qs (some (pyn 3)) && pfGt row.impr (some cfg.min_impr)) = true := by
  unfold qualityScoreAnchorRule at h
  split at h
  · simp only [List.mem_singleton] at h
    subst h
    exact ⟨rfl, rfl, by assumption⟩
  · simp at h

theorem mem_rowFindings {cfg : Config} {row : EngineRow} {f : Finding}
    (h : f ∈ rowFindings cfg row) :
    f ∈ cashIncineratorRule cfg row ∨ f ∈ brandDefenseRule cfg row ∨
      f ∈ competitorWasteRule cfg row ∨ f ∈ broadMatchRule cfg row ∨
      f ∈ qualityScoreAnchorRule cfg row := by
  simp only [rowFindings, List.mem_append] at h
  tauto

theorem rowFindings_priority {cfg : Config} {row : EngineRow} {f : Finding}
    (h : f ∈ rowFindings cfg row) : f.priority = "HIGH" ∨ f.priority = "MED" := by
  rcases mem_rowFindings h with h1 | h2 | h3 | h4 | h5
  · exact Or.inl (mem_cashIncineratorRule h1).1
  · exact Or.inl (mem_brandDefenseRule h2).1
  · exact Or.inr (mem_competitorWasteRule h3).1
  · exact Or.inl (mem_broadMatchRule h4).1
  · exact Or.inl (mem_qualityScoreAnchorRule h5).1

theorem exc_bind_ok {α β : Type} (a : α) (f : α → Except String β) :
    (Except.ok a >>= f) = f a := rfl

theorem exc_bind_error {α β : Type} (e : String) (f : α → Except String β) :
    ((Except.error e : Except String α) >>= f) = Except.error e := rfl

/-! The claim theorems. -/

/-- C4: the Field Normalizer maps the placeholder `--` token to `0.0` for
percentages and to `0` for counts, but to the missing sentinel (NaN) for
quality scores, and the missing sentinel is distinguishable from `0` (both
as a value and under Python float equality). -/
theorem c4_placeholder_tokens :
    clean_percent (.cs "--") = .ok (.cf (some (pyn 0))) ∧
    clean_number (.cs "--") = .ok (.cf (some (pyn 0))) ∧
    clean_qs (.cs "--") = .ok (.cf none) ∧
    Cell.cf none ≠ Cell.cf (some (pyn 0)) ∧
    pfEq none (some (pyn 0)) = false := by decide

/-- C8: the pipeline is deterministic — two runs of the full pipeline on
the same raw table and configuration produce the same outcome (the same
findings in the same order, and the same summary statistics).  In this
embedding the pipeline is a pure function of the table and configuration,
mirroring the absence of any state, randomness or time dependence in
app.py. -/
theorem c8_pipeline_deterministic (cfg : Config) (t : Table) (r₁ r₂ : RunOutcome)
    (h₁ : runPipeline cfg t = r₁) (h₂ : runPipeline cfg t = r₂) : r₁ = r₂ := by
  subst h₁
  exact h₂

/-- C8 witness: the two runs of the pipeline on the concrete fixture agree. -/
theorem c8_pipeline_deterministic_witness :
    runPipeline cfgT tblT = runPipeline cfgT tblT :=
  c8_pipeline_deterministic cfgT tblT _ _ rfl rfl

/-- C2 counterexample: a row whose quality score is the missing sentinel
can still produce a Brand Defense Leak finding (through the CTR branch of
the rule), so the claim as stated is false. -/
theorem c2_missing_qs_counterexample :
    rowT.qs = none ∧ ∃ f ∈ rowFindings cfgT rowT, f.issue = "Brand Defense Leak" := by
  decide

/-- C2 amended: a row whose quality score is the missing sentinel never
produces a Quality Score Anchor finding, and any Brand Defense Leak
finding it produces comes from the CTR branch of the rule (`ctr < 5.0 and
impr > 20`); the quality-score branch of Brand Defense never fires on
missing data. -/
theorem c2_missing_qs_amended (cfg : Config) (row : EngineRow) (h : row.qs = none) :
    (∀ f ∈ rowFindings cfg row, f.issue ≠ "Quality Score Anchor") ∧
    (∀ f ∈ rowFindings cfg row, f.issue = "Brand Defense Leak" →
      pfLt row.ctr (some (pyn 5)) = true ∧ pfGt row.impr (some (pyn 20)) = true) := by
  constructor
  · intro f hf
    rcases mem_rowFindings hf with h1 | h2 | h3 | h4 | h5
    · rw [(mem_cashIncineratorRule h1).2.1]
      decide
    · rw [(mem_brandDefenseRule h2).2.1]
      decide
    · rw [(mem_competitorWasteRule h3).2]
      decide
    · rw [(mem_broadMatchRule h4).2]
      decide
    · have hg := (mem_qualityScoreAnchorRule h5).2.2
      rw [h] at hg
      simp [pfLt] at hg
  · intro f hf hiss
    rcases mem_rowFindings hf with h1 | h2 | h3 | h4 | h5
    · rw [(mem_cashIncineratorRule h1).2.1] at hiss
      exact absurd hiss (by decide)
    · have hg := (mem_brandDefenseRule h2).2.2
      rw [h] at hg
      simpa [pfLt] using hg
    · rw [(mem_competitorWasteRule h3).2] at hiss
      exact absurd hiss (by decide)
    · rw [(mem_broadMatchRule h4).2] at hiss
      exact absurd hiss (by decide)
    · rw [(mem_qualityScoreAnchorRule h5).2.1] at hiss
      exact absurd hiss (by decide)

/-- C2 amended witness: the amended theorem applied to the concrete fixture
row, whose quality score is missing. -/
theorem c2_missing_qs_amended_witness :
    (∀ f ∈ rowFindings cfgT rowT, f.issue ≠ "Quality Score Anchor") ∧
    (∀ f ∈ rowFindings cfgT rowT, f.issue = "Brand Defense Leak" →
      pfLt rowT.ctr (some (pyn 5)) = true ∧ pfGt rowT.impr (some (pyn 20)) = true) :=
  c2_missing_qs_amended cfgT rowT rfl

/-- C5: the Cash Incinerator rule fires exactly when `conversions == 0`
and `cost > cpa_threshold`; and on a row with conversions 0, cost 45.00
under a configuration with `cpa_threshold = 30`, the engine produces a
HIGH Cash Incinerator finding whose metric text contains `$45.00` and
`0 Leads`. -/
theorem c5_cash_incinerator (cfg : Config) (row : EngineRow) :
    ((∃ f ∈ rowFindings cfg row, f.issue = "Cash Incinerator") ↔
      (pfEq row.conv (some (pyn 0)) && pfGt row.cost (some cfg.cpa_threshold)) = true) ∧
    (row.conv = some (pyn 0) → row.cost = some (pyn 45) → cfg.cpa_threshold = pyn 30 →
      ∃ f ∈ rowFindings cfg row, f.priority = "HIGH" ∧ f.issue = "Cash Incinerator" ∧
        containsSub f.metric "$45.00" = true ∧ containsSub f.metric "0 Leads" = true) := by
  have hfire : ∀ hg : (pfEq row.conv (some (pyn 0)) &&
      pfGt row.cost (some cfg.cpa_threshold)) = true,
      ({ priority := "HIGH", issue := "Cash Incinerator", adGroup := row.adGroup,
         keyword := row.keywordCell, metric := incineratorMetric row.cost,
         fix := "PAUSE immediately." } : Finding) ∈ rowFindings cfg row := by
    intro hg
    have : ({ priority := "HIGH", issue := "Cash Incinerator", adGroup := row.adGroup,
              keyword := row.keywordCell, metric := incineratorMetric row.cost,
              fix := "PAUSE immediately." } : Finding) ∈ cashIncineratorRule cfg row := by
      rw [cashIncineratorRule, if_pos hg]
      exact List.mem_singleton.mpr rfl
    exact List.mem_append_left _ (List.mem_append_left _ (List.mem_append_left _
      (List.mem_append_left _ this)))
  constructor
  · constructor
    · rintro ⟨f, hf, hiss⟩
      rcases mem_rowFindings hf with h1 | h2 | h3 | h4 | h5
      · exact (mem_cashIncineratorRule h1).2.2.2
      · rw [(mem_brandDefenseRule h2).2.1] at hiss
        exact absurd hiss (by decide)
      · rw [(mem_competitorWasteRule h3).2] at hiss
        exact absurd hiss (by decide)
      · rw [(mem_broadMatchRule h4).2] at hiss
        exact absurd hiss (by decide)
      · rw [(mem_qualityScoreAnchorRule h5).2.1] at hiss
        exact absurd hiss (by decide)
    · intro hg
      exact ⟨_, hfire hg, rfl⟩
  · intro hconv hcost hcpa
    have hg : (pfEq row.conv (some (pyn 0)) && pfGt row.cost (some cfg.cpa_threshold)) = true := by
      rw [hconv, hcost, hcpa]
      decide
    refine ⟨_, hfire hg, rfl, rfl, ?_, ?_⟩
    · show containsSub (incineratorMetric row.cost) "$45.00" = true
      rw [hcost]
      decide
    · show containsSub (incineratorMetric row.cost) "0 Leads" = true
      rw [hcost]
      decide

/-- C5 witness: the theorem applied to the concrete fixture row (cost 45,
no conversions) under the fixture configuration (CPA threshold 30). -/
theorem c5_cash_incinerator_witness :
    ∃ f ∈ rowFindings cfgT rowT, f.priority = "HIGH" ∧ f.issue = "Cash Incinerator" ∧
      containsSub f.metric "$45.00" = true ∧ containsSub f.metric "0 Leads" = true :=
  (c5_cash_incinerator cfgT rowT).2 rfl rfl rfl

/-- C9: every finding the rule engine emits has priority `HIGH` or `MED` —
no run ever emits a `LOW` finding — and consequently the plain
(non-colored) spreadsheet row format is unreachable for finding rows. -/
theorem c9_no_low_priority (cfg : Config) (cols : List String) (rows : List (List Cell))
    (fs : List Finding) (h : runEngine cfg cols rows = .ok fs) :
    ∀ f ∈ fs, (f.priority = "HIGH" ∨ f.priority = "MED") ∧
      rowFmt f.priority ≠ XlsxFmt.normal := by
  induction rows generalizing fs with
  | nil =>
    rw [runEngine] at h
    cases h
    simp
  | cons r rest ih =>
    rw [runEngine] at h
    cases hx : extractRow cols r with
    | error e => rw [hx, exc_bind_error] at h; cases h
    | ok er =>
      rw [hx, exc_bind_ok] at h
      cases hr : runEngine cfg cols rest with
      | error e => rw [hr, exc_bind_error] at h; cases h
      | ok tail =>
        rw [hr, exc_bind_ok] at h
        cases h
        intro f hf
        rcases List.mem_append.mp hf with hrow | htail
        · have hp := rowFindings_priority hrow
          refine ⟨hp, ?_⟩
          rcases hp with hp | hp <;> rw [hp] <;> decide
        · exact ih tail hr f htail

/-- C9 witness: the theorem applied to a concrete engine run that produces
findings, instantiated at the first finding of that run. -/
theorem c9_no_low_priority_witness :
    (((rowFindings cfgT rowTC ++ []).headD (fsHigh "z")).priority = "HIGH" ∨
      ((rowFindings cfgT rowTC ++ []).headD (fsHigh "z")).priority = "MED") ∧
    rowFmt ((rowFindings cfgT rowTC ++ []).headD (fsHigh "z")).priority ≠ XlsxFmt.normal :=
  c9_no_low_priority cfgT tblT.cols cleanRowsT (rowFindings cfgT rowTC ++ []) (by decide)
    ((rowFindings cfgT rowTC ++ []).headD (fsHigh "z")) (by decide)

/-- C1: under the canonical six-rule set of the specification (the five
rules of app.py plus the spec-modelled Click Repellent rule), every
normalized row with `ctr < 1.0` and `impressions > min_impressions * 2`
produces a Click Repellent finding with priority MED, a metric text giving
the CTR value, and the fix text `Rewrite ad headlines`; Click Repellent is
the sixth rule of the canonical evaluation order. -/
theorem c1_click_repellent (cfg : Config) (row : EngineRow)
    (hc : pfLt row.ctr (some (pyn 1)) = true)
    (hi : pfGt row.impr (some (cfg.min_impr.mul ⟨2, 1⟩)) = true) :
    (∃ f ∈ canonicalRowFindings cfg row,
      f.priority = "MED" ∧ f.issue = "Click Repellent" ∧
      f.metric = "CTR: " ++ pfStr row.ctr ++ "%" ∧ f.fix = "Rewrite ad headlines") ∧
    canonicalRuleList[5]? = some clickRepellentRule := by
  refine ⟨⟨{ priority := "MED", issue := "Click Repellent", adGroup := row.adGroup,
             keyword := row.keywordCell, metric := "CTR: " ++ pfStr row.ctr ++ "%",
             fix := "Rewrite ad headlines" }, ?_, rfl, rfl, rfl, rfl⟩, rfl⟩
  have hmem : ({ priority := "MED", issue := "Click Repellent", adGroup := row.adGroup,
                 keyword := row.keywordCell, metric := "CTR: " ++ pfStr row.ctr ++ "%",
                 fix := "Rewrite ad headlines" } : Finding) ∈ clickRepellentRule cfg row := by
    rw [clickRepellentRule, if_pos (by rw [hc, hi]; rfl)]
    exact List.mem_singleton.mpr rfl
  simp only [canonicalRowFindings, canonicalRuleList, List.map_cons, List.map_nil,
    List.flatten, List.mem_append, List.append_nil]
  tauto

/-- C1 witness: the theorem applied to a concrete row with CTR 0.5 and 101
impressions under the fixture configuration (`min_impr = 50`). -/
theorem c1_click_repellent_witness :
    ∃ f ∈ canonicalRowFindings cfgT rowT2,
      f.priority = "MED" ∧ f.issue = "Click Repellent" ∧
      f.metric = "CTR: " ++ pfStr rowT2.ctr ++ "%" ∧ f.fix = "Rewrite ad headlines" :=
  (c1_click_repellent cfgT rowT2 (by decide) (by decide)).1

theorem excB_ok {α β : Type} (a : α) (f : α → Except String β) :
    (Except.ok a).bind f = f a := rfl

theorem excB_error {α β : Type} (e : String) (f : α → Except String β) :
    (Except.error e : Except String α).bind f = Except.error e := rfl

theorem cleanCols_cons_none {cols : List String} {name : String}
    {f : Cell → Except String Cell} (rest : List (String × (Cell → Except String Cell)))
    (rows : List (List Cell)) (h : colIndex cols name = none) :
    cleanCols cols ((name, f) :: rest) rows = cleanCols cols rest rows := by
  rw [cleanCols, h]

theorem cleanCols_cons_some {cols : List String} {name : String} {idx : Nat}
    {f : Cell → Except String Cell} (rest : List (String × (Cell → Except String Cell)))
    (rows : List (List Cell)) (h : colIndex cols name = some idx) :
    cleanCols cols ((name, f) :: rest) rows =
      (cleanRows f idx rows) >>= fun rows' => cleanCols cols rest rows' := by
  rw [cleanCols, h]

theorem cleanCols_nil (cols : List String)
    (m : List (String × (Cell → Except String Cell))) : cleanCols cols m [] = .ok [] := by
  induction m with
  | nil => rfl
  | cons p rest ih =>
    obtain ⟨name, f⟩ := p
    cases hci : colIndex cols name with
    | none => rw [cleanCols_cons_none rest [] hci]; exact ih
    | some idx =>
      rw [cleanCols_cons_some rest [] hci]
      simpa [cleanRows, exc_bind_ok] using ih

theorem cleanRows_ne_nil {f : Cell → Except String Cell} {idx : Nat}
    {rows rows' : List (List Cell)} (h : cleanRows f idx rows = .ok rows')
    (hne : rows ≠ []) : rows' ≠ [] := by
  cases rows with
  | nil => exact absurd rfl hne
  | cons r rest =>
    rw [cleanRows] at h
    cases hc : cleanCell f idx r with
    | error e => rw [hc, exc_bind_error] at h; cases h
    | ok r' =>
      rw [hc, exc_bind_ok] at h
      cases hr : cleanRows f idx rest with
      | error e => rw [hr, exc_bind_error] at h; cases h
      | ok rest' =>
        rw [hr, exc_bind_ok] at h
        cases h
        simp

theorem cleanCols_ne_nil {cols : List String}
    {m : List (String × (Cell → Except String Cell))} {rows rows' : List (List Cell)}
    (h : cleanCols cols m rows = .ok rows') (hne : rows ≠ []) : rows' ≠ [] := by
  induction m generalizing rows with
  | nil =>
    rw [cleanCols] at h
    cases h
    exact hne
  | cons p rest ih =>
    obtain ⟨name, f⟩ := p
    cases hci : colIndex cols name with
    | none =>
      rw [cleanCols_cons_none rest rows hci] at h
      exact ih h hne
    | some idx =>
      rw [cleanCols_cons_some rest rows hci] at h
      cases hr : cleanRows f idx rows with
      | error e => rw [hr, exc_bind_error] at h; cases h
      | ok mid =>
        rw [hr, exc_bind_ok] at h
        exact ih h (cleanRows_ne_nil hr hne)

theorem getCol_ok_isSome {cols : List String} {r : List Cell} {name : String} {c : Cell}
    (h : getCol cols r name = .ok c) : (colIndex cols name).isSome = true := by
  unfold getCol rowGet at h
  cases hc : colIndex cols name with
  | none => rw [hc] at h; cases h
  | some i => rfl

theorem extractRow_ok_present {cols : List String} {r : List Cell} {er : EngineRow}
    (h : extractRow cols r = .ok er) :
    ∀ c ∈ requiredCols, (colIndex cols c).isSome = true := by
  unfold extractRow at h
  cases h1 : getCol cols r "Keyword" with
  | error e => rw [h1, exc_bind_error] at h; cases h
  | ok kwCell =>
  rw [h1, exc_bind_ok] at h
  cases h2 : getCol cols r "Match type" with
  | error e => rw [h2, exc_bind_error] at h; cases h
  | ok mtCell =>
  rw [h2, exc_bind_ok] at h
  cases h3 : getCol cols r "Cost" with
  | error e => rw [h3, exc_bind_error] at h; cases h
  | ok costCell =>
  rw [h3, exc_bind_ok] at h
  cases h3f : cellToFloat costCell with
  | error e => rw [h3f, exc_bind_error] at h; cases h
  | ok cost =>
  rw [h3f, exc_bind_ok] at h
  cases h4 : getCol cols r "Conversions" with
  | error e => rw [h4, exc_bind_error] at h; cases h
  | ok convCell =>
  rw [h4, exc_bind_ok] at h
  cases h4f : cellToFloat convCell with
  | error e => rw [h4f, exc_bind_error] at h; cases h
  | ok conv =>
  rw [h4f, exc_bind_ok] at h
  cases h5 : getCol cols r "Quality Score" with
  | error e => rw [h5, exc_bind_error] at h; cases h
  | ok qsCell =>
  rw [h5, exc_bind_ok] at h
  cases h5f : cellToFloat qsCell with
  | error e => rw [h5f, exc_bind_error] at h; cases h
  | ok qs =>
  rw [h5f, exc_bind_ok] at h
  cases h6 : getCol cols r "Impr." with
  | error e => rw [h6, exc_bind_error] at h; cases h
  | ok imprCell =>
  rw [h6, exc_bind_ok] at h
  cases h6f : cellToFloat imprCell with
  | error e => rw [h6f, exc_bind_error] at h; cases h
  | ok impr =>
  rw [h6f, exc_bind_ok] at h
  cases h7 : getCol cols r "CTR" with
  | error e => rw [h7, exc_bind_error] at h; cases h
  | ok ctrCell =>
  intro c hc
  simp only [requiredCols, List.mem_cons, List.not_mem_nil, or_false] at hc
  rcases hc with rfl | rfl | rfl | rfl | rfl | rfl | rfl
  · exact getCol_ok_isSome h1
  · exact getCol_ok_isSome h2
  · exact getCol_ok_isSome h3
  · exact getCol_ok_isSome h4
  · exact getCol_ok_isSome h6
  · exact getCol_ok_isSome h7
  · exact getCol_ok_isSome h5

theorem extractRow_not_ok {cols : List String} {r : List Cell}
    (hmiss : ∃ c ∈ requiredCols, colIndex cols c = none) :
    ∀ er, extractRow cols r ≠ .ok er := by
  intro er hok
  obtain ⟨c, hc, hnone⟩ := hmiss
  have := extractRow_ok_present hok c hc
  rw [hnone] at this
  cases this

/-- C7: an input table in which every row has a missing keyword (so no
rows survive the keyword filter) produces the no-issues success outcome,
not an error, and zero findings. -/
theorem c7_all_keywords_missing (cfg : Config) (t : Table)
    (hk : (colIndex t.cols "Keyword").isSome = true)
    (h : ∀ r ∈ t.rows, rowGet t.cols r "Keyword" = some (.cf none)) :
    runPipeline cfg t = .cleanSuccess := by
  have hfil : t.rows.filter (keywordNotna t.cols) = [] := by
    apply List.filter_eq_nil_iff.mpr
    intro r hr
    simp [keywordNotna, h r hr]
  obtain ⟨i, hi⟩ := Option.isSome_iff_exists.mp hk
  simp only [runPipeline, pipelineE, hi, hfil, cleanCols_nil, excB_ok, runEngine,
    List.isEmpty_nil, if_true]

/-- C7 witness: the theorem applied to a concrete one-row table whose only
keyword cell is NaN. -/
theorem c7_all_keywords_missing_witness : runPipeline cfgT tblKW = .cleanSuccess :=
  c7_all_keywords_missing cfgT tblKW (by decide) (by decide)

/-- C6 counterexample: a table lacking the required `Cost` column whose
rows all lack a keyword runs to the no-issues success outcome instead of
failing, so the claim as stated is false. -/
theorem c6_missing_column_counterexample :
    colIndex tblNoCostEmpty.cols "Cost" = none ∧ "Cost" ∈ requiredCols ∧
      runPipeline cfgT tblNoCostEmpty = .cleanSuccess := by
  decide

/-- C6 amended: a table lacking a required column fails with a reported
error — before any rule is evaluated — and emits no findings table,
summary or report, provided the run reaches the rule loop: that is, when
the missing column is `Keyword` itself, or at least one row survives the
keyword filter.  (When no rows survive, the engine loop never touches the
missing column and the run succeeds with no findings.) -/
theorem c6_missing_column_amended (cfg : Config) (t : Table)
    (hmiss : ∃ c ∈ requiredCols, colIndex t.cols c = none)
    (hsurv : colIndex t.cols "Keyword" = none ∨ t.rows.filter (keywordNotna t.cols) ≠ []) :
    ∃ e, runPipeline cfg t = .failure e := by
  cases hksome : colIndex t.cols "Keyword" with
  | none =>
    exact ⟨"KeyError: Keyword", by simp only [runPipeline, pipelineE, hksome]⟩
  | some i =>
    have hfil : t.rows.filter (keywordNotna t.cols) ≠ [] := by
      rcases hsurv with hcon | hne
      · rw [hksome] at hcon; cases hcon
      · exact hne
    cases hcc : cleanCols t.cols cols_map (t.rows.filter (keywordNotna t.cols)) with
    | error e =>
      exact ⟨e, by simp only [runPipeline, pipelineE, hksome, hcc, excB_error]⟩
    | ok cleaned =>
      have hne : cleaned ≠ [] := cleanCols_ne_nil hcc hfil
      obtain ⟨c0, crest, rfl⟩ : ∃ a as, cleaned = a :: as := by
        cases cleaned with
        | nil => exact absurd rfl hne
        | cons a as => exact ⟨a, as, rfl⟩
      cases hex : extractRow t.cols c0 with
      | ok er => exact absurd hex (extractRow_not_ok hmiss er)
      | error e =>
        exact ⟨e, by simp only [runPipeline, pipelineE, hksome, hcc, excB_ok, runEngine,
          hex, exc_bind_error, excB_error]⟩

/-- C6 amended witness: the amended theorem applied to a concrete table
lacking the `Cost` column with one surviving keyword row. -/
theorem c6_missing_column_amended_witness : ∃ e, runPipeline cfgT tblNoCost = .failure e :=
  c6_missing_column_amended cfgT tblNoCost ⟨"Cost", by decide, by decide⟩ (Or.inr (by decide))

/-! Decimal rendering and parsing round-trip lemmas (claim C10). -/

theorem strData_append (a b : String) : (a ++ b).data = a.data ++ b.data := rfl

theorem natDigitsAux_eq : ∀ fuel n, n ≤ fuel → natDigitsAux fuel n = Nat.digits 10 n := by
  intro fuel
  induction fuel with
  | zero =>
    intro n hn
    interval_cases n
    simp [natDigitsAux]
  | succ f ih =>
    intro n hn
    cases n with
    | zero => simp [natDigitsAux]
    | succ m =>
      rw [natDigitsAux, Nat.digits_def' (by norm_num : (1 : ℕ) < 10) (Nat.succ_pos m)]
      congr 1
      exact ih _ (by omega)

theorem natDigits_eq (n : Nat) : natDigits n = Nat.digits 10 n := natDigitsAux_eq n n le_rfl

theorem natDigits_lt (n : Nat) : ∀ d ∈ natDigits n, d < 10 := by
  rw [natDigits_eq]
  intro d hd
  exact Nat.digits_lt_base (by norm_num) hd

theorem charDigit_digitChar {d : Nat} (h : d < 10) : charDigit (digitChar d) = some d := by
  interval_cases d <;> rfl

theorem digitsVals_map (L : List Nat) (h : ∀ d ∈ L, d < 10) :
    digitsVals (L.map digitChar) = some L := by
  induction L with
  | nil => rfl
  | cons d t ih =>
    rw [List.map_cons, digitsVals, charDigit_digitChar (h d (by simp)),
      ih (fun x hx => h x (by simp [hx]))]

theorem foldl_parse (L : List Nat) : ∀ a : Nat,
    List.foldl (fun x d => 10 * x + d) a L.reverse = a * 10 ^ L.length + Nat.ofDigits 10 L := by
  induction L with
  | nil =>
    intro a
    simp [Nat.ofDigits]
  | cons d t ih =>
    intro a
    rw [List.reverse_cons, List.foldl_append, ih a]
    simp only [List.foldl, Nat.ofDigits_cons, List.length_cons]
    ring

theorem parseDigits_natToChars (n : Nat) : parseDigits (natToChars n) = some n := by
  by_cases h0 : n = 0
  · subst h0
    rfl
  · have hstep : parseDigits (natToChars n) =
        some (List.foldl (fun a d => 10 * a + d) 0 (natDigits n).reverse) := by
      rw [parseDigits, natToChars, if_neg h0,
        digitsVals_map (natDigits n).reverse (fun d hd => natDigits_lt n d (List.mem_reverse.mp hd))]
      rfl
    rw [hstep, foldl_parse (natDigits n) 0]
    simp [natDigits_eq, Nat.ofDigits_digits]

theorem mem_natToChars {c : Char} {n : Nat} (h : c ∈ natToChars n) :
    ∃ d, d < 10 ∧ c = digitChar d := by
  rw [natToChars] at h
  split at h
  · refine ⟨0, by norm_num, ?_⟩
    simpa using h
  · rw [List.mem_map] at h
    obtain ⟨d, hd, rfl⟩ := h
    exact ⟨d, natDigits_lt _ _ (List.mem_reverse.mp hd), rfl⟩

theorem mem_twoDigitChars {c : Char} {m : Nat} (h : c ∈ twoDigitChars m) :
    ∃ d, d < 10 ∧ c = digitChar d := by
  simp only [twoDigitChars, List.mem_cons, List.not_mem_nil, or_false] at h
  rcases h with rfl | rfl
  · exact ⟨m / 10 % 10, Nat.mod_lt _ (by norm_num), rfl⟩
  · exact ⟨m % 10, Nat.mod_lt _ (by norm_num), rfl⟩

theorem digitChar_ne {d : Nat} (hd : d < 10) (c : Char) (hc : charDigit c = none) :
    digitChar d ≠ c := by
  intro he
  rw [← he, charDigit_digitChar hd] at hc
  cases hc

theorem not_mem_fixed2 {c : Char} (hc : charDigit c = none) (hdot : c ≠ '.') (m : Nat) :
    c ∉ fixed2Chars m := by
  intro hmem
  rw [fixed2Chars] at hmem
  rcases List.mem_append.mp hmem with h | h
  · obtain ⟨d, hd, rfl⟩ := mem_natToChars h
    exact digitChar_ne hd _ hc rfl
  · rcases List.mem_cons.mp h with rfl | h
    · exact hdot rfl
    · obtain ⟨d, hd, rfl⟩ := mem_twoDigitChars h
      exact digitChar_ne hd _ hc rfl

theorem splitOnCh_ne_nil (sep : Char) (l : List Char) : splitOnCh sep l ≠ [] := by
  cases l with
  | nil => simp [splitOnCh]
  | cons c t =>
    rw [splitOnCh]
    cases hs : splitOnCh sep t with
    | nil => simp
    | cons h r =>
      by_cases hc : c = sep <;> simp [hc]

theorem splitOnCh_cons_self (sep : Char) (t : List Char) :
    splitOnCh sep (sep :: t) = [] :: splitOnCh sep t := by
  rw [splitOnCh]
  cases hs : splitOnCh sep t with
  | nil => exact absurd hs (splitOnCh_ne_nil sep t)
  | cons h r => simp

theorem splitOnCh_not_mem {sep : Char} {l : List Char} (h : sep ∉ l) :
    splitOnCh sep l = [l] := by
  induction l with
  | nil => rfl
  | cons c t ih =>
    have hcs : c ≠ sep := fun he => h (he ▸ List.mem_cons_self c t)
    rw [splitOnCh, ih (fun hm => h (List.mem_cons_of_mem _ hm))]
    simp [hcs]

theorem splitOnCh_append {sep : Char} {l₁ : List Char} (l₂ : List Char) (h : sep ∉ l₁) :
    splitOnCh sep (l₁ ++ sep :: l₂) = l₁ :: splitOnCh sep l₂ := by
  induction l₁ with
  | nil =>
    rw [List.nil_append, splitOnCh_cons_self]
  | cons c t ih =>
    have hcs : c ≠ sep := fun he => h (he ▸ List.mem_cons_self c t)
    rw [List.cons_append, splitOnCh, ih (fun hm => h (List.mem_cons_of_mem _ hm))]
    simp [hcs]

theorem rhe_nonneg (a : Int) (b : Nat) (ha : 0 ≤ a) : 0 ≤ rhe a b := by
  have hf : 0 ≤ Int.fdiv a (b : Int) := by
    rw [Int.fdiv_eq_ediv _ (by positivity)]
    exact Int.ediv_nonneg ha (by positivity)
  rw [rhe]
  split
  · exact hf
  · split
    · omega
    · split
      · exact hf
      · omega

theorem natToChars_ne_nil (n : Nat) : natToChars n ≠ [] := by
  rw [natToChars]
  split
  · simp
  · rename_i h
    simp only [ne_eq, List.map_eq_nil_iff, List.reverse_eq_nil_iff, natDigits_eq]
    exact Nat.digits_ne_nil_iff_ne_zero.mpr h

theorem parseDigits_twoDigitChars (m : Nat) :
    parseDigits (twoDigitChars m) = some (m % 100) := by
  have hv : digitsVals (twoDigitChars m) = some [m / 10 % 10, m % 10] := by
    have hm := digitsVals_map [m / 10 % 10, m % 10] (by
      intro d hd
      simp only [List.mem_cons, List.not_mem_nil, or_false] at hd
      rcases hd with rfl | rfl <;> omega)
    simpa [twoDigitChars] using hm
  rw [parseDigits, hv]
  show some (List.foldl (fun a d => 10 * a + d) 0 [m / 10 % 10, m % 10]) = some (m % 100)
  simp only [List.foldl]
  congr 1
  omega

theorem parseUnsigned_fixed2 (m : Nat) :
    parseUnsigned (fixed2Chars m) = some ⟨(m : Int), 100⟩ := by
  have hdot1 : '.' ∉ natToChars (m / 100) := by
    intro hmem
    obtain ⟨d, hd, he⟩ := mem_natToChars hmem
    exact digitChar_ne hd '.' (by decide) he.symm
  have hdot2 : '.' ∉ twoDigitChars (m % 100) := by
    intro hmem
    obtain ⟨d, hd, he⟩ := mem_twoDigitChars hmem
    exact digitChar_ne hd '.' (by decide) he.symm
  have hsplit : splitOnCh '.' (fixed2Chars m) =
      [natToChars (m / 100), twoDigitChars (m % 100)] := by
    rw [fixed2Chars, splitOnCh_append _ hdot1, splitOnCh_not_mem hdot2]
  have hcond : (decide (natToChars (m / 100) = []) &&
      decide (twoDigitChars (m % 100) = [])) = false := by
    simp [natToChars_ne_nil]
  have hlen : (twoDigitChars (m % 100)).length = 2 := rfl
  simp only [parseUnsigned, hsplit, hcond, Bool.false_eq_true, if_false,
    parseDigits_natToChars, parseDigits_twoDigitChars, hlen, Option.some.injEq,
    PyNum.mk.injEq]
  refine ⟨?_, by norm_num⟩
  push_cast
  omega

theorem parsePyFloat_fixed2 (m : Nat) :
    parsePyFloat (String.mk (fixed2Chars m)) = some ⟨(m : Int), 100⟩ := by
  obtain ⟨c0, cs, hcons⟩ : ∃ a as, natToChars (m / 100) = a :: as := by
    cases h : natToChars (m / 100) with
    | nil => exact absurd h (natToChars_ne_nil _)
    | cons a as => exact ⟨a, as, rfl⟩
  obtain ⟨d, hd10, rfl⟩ : ∃ d, d < 10 ∧ c0 = digitChar d :=
    mem_natToChars (by rw [hcons]; exact List.mem_cons_self _ _)
  have hdata : (String.mk (fixed2Chars m)).data =
      digitChar d :: (cs ++ '.' :: twoDigitChars (m % 100)) := by
    show fixed2Chars m = _
    rw [fixed2Chars, hcons, List.cons_append]
  have hdata' : fixed2Chars m = digitChar d :: (cs ++ '.' :: twoDigitChars (m % 100)) := by
    rw [fixed2Chars, hcons, List.cons_append]
  rw [parsePyFloat]
  simp only [hdata']
  rw [if_neg (digitChar_ne hd10 '-' (by decide)), if_neg (digitChar_ne hd10 '+' (by decide)),
    ← hdata', parseUnsigned_fixed2]

/-- C10: the Cash Incinerator metric round-trip — formatting a cost `c ≥ 0`
as `f"${c:.2f} Spend / 0 Leads"` and then extracting the lost spend with
`float(x.split('$')[1].split(' ')[0])` yields exactly `c` rounded to two
decimal places (a whole number of hundredths, rounded half-to-even as
Python's `.2f` formatting does). -/
theorem c10_lost_spend_roundtrip (c : PyNum) (_hden : c.den ≠ 0) (hnum : 0 ≤ c.num) :
    lostSpendOf (incineratorMetric (some c)) = .ok ⟨rhe (100 * c.num) c.den, 100⟩ := by
  have hnn : 0 ≤ rhe (100 * c.num) c.den := rhe_nonneg _ _ (by positivity)
  have hback : (((rhe (100 * c.num) c.den).toNat : Int)) = rhe (100 * c.num) c.den :=
    Int.toNat_of_nonneg hnn
  have hfmt : pfFmt2 (some c) = String.mk (fixed2Chars (rhe (100 * c.num) c.den).toNat) := by
    show fmt2 c = _
    rw [fmt2, if_neg (not_lt.mpr hnn)]
  have hdata : (incineratorMetric (some c)).data =
      '$' :: (fixed2Chars (rhe (100 * c.num) c.den).toNat ++
        (' ' :: ("Spend / 0 Leads").data)) := by
    show (("$" ++ pfFmt2 (some c)) ++ " Spend / 0 Leads").data = _
    rw [strData_append, strData_append, hfmt]
    simp [List.append_assoc]
  have hdollar : '$' ∉ fixed2Chars (rhe (100 * c.num) c.den).toNat ++
      (' ' :: ("Spend / 0 Leads").data) := by
    intro hmem
    rcases List.mem_append.mp hmem with h | h
    · exact not_mem_fixed2 (by decide) (by decide) _ h
    · revert h
      decide
  have hspace : ' ' ∉ fixed2Chars (rhe (100 * c.num) c.den).toNat :=
    not_mem_fixed2 (by decide) (by decide) _
  have hsp : splitOnCh ' ' (fixed2Chars (rhe (100 * c.num) c.den).toNat ++
      (' ' :: ("Spend / 0 Leads").data)) =
      fixed2Chars (rhe (100 * c.num) c.den).toNat :: splitOnCh ' ' ("Spend / 0 Leads").data :=
    splitOnCh_append _ hspace
  simp only [lostSpendOf, hdata, splitOnCh_cons_self, splitOnCh_not_mem hdollar, hsp,
    parsePyFloat_fixed2, hback]

/-- C10 witness: the theorem applied to the concrete cost 45 (the metric
text is `$45.00 Spend / 0 Leads` and the extracted value is 4500/100). -/
theorem c10_lost_spend_roundtrip_witness :
    lostSpendOf (incineratorMetric (some (pyn 45))) = .ok ⟨rhe (100 * 45) 1, 100⟩ :=
  c10_lost_spend_roundtrip (pyn 45) (by decide) (by decide)

/-! Sort stability lemmas (claim C3). -/

theorem insIdx_perm (v : List Int) (i : Nat) (l : List Nat) :
    List.Perm (insIdx v i l) (i :: l) := by
  induction l with
  | nil => exact List.Perm.refl _
  | cons j t ih =>
    rw [insIdx]
    split
    · exact List.Perm.refl _
    · exact (ih.cons j).trans (List.Perm.swap i j t)

theorem mem_insIdx {v : List Int} {i a : Nat} {l : List Nat} :
    a ∈ insIdx v i l ↔ a = i ∨ a ∈ l := by
  rw [(insIdx_perm v i l).mem_iff]
  simp

theorem insIdx_pairwise {v : List Int} {i : Nat} {l : List Nat}
    (hl : l.Pairwise (lexRel v)) (hmax : ∀ j ∈ l, j < i) :
    (insIdx v i l).Pairwise (lexRel v) := by
  induction l with
  | nil => simp [insIdx]
  | cons j t ih =>
    rw [insIdx]
    rcases List.pairwise_cons.mp hl with ⟨hjt, ht⟩
    split
    · rename_i hlt
      refine List.pairwise_cons.mpr ⟨?_, hl⟩
      intro b hb
      rcases List.mem_cons.mp hb with rfl | hbt
      · exact Or.inl hlt
      · rcases hjt b hbt with hkey | ⟨heq, _⟩
        · exact Or.inl (lt_trans hlt hkey)
        · exact Or.inl (heq ▸ hlt)
    · rename_i hnlt
      refine List.pairwise_cons.mpr
        ⟨?_, ih ht (fun x hx => hmax x (List.mem_cons_of_mem _ hx))⟩
      intro b hb
      rcases mem_insIdx.mp hb with rfl | hbt
      · rcases lt_or_eq_of_le (not_lt.mp hnlt) with hkey | hkey
        · exact Or.inl hkey
        · exact Or.inr ⟨hkey, hmax j (List.mem_cons_self _ _)⟩
      · exact hjt b hbt

theorem insRun_spec (v : List Int) : ∀ (rest acc : List Nat),
    acc.Pairwise (lexRel v) → (∀ j ∈ acc, ∀ i ∈ rest, j < i) →
    rest.Pairwise (· < ·) →
    (insRun v acc rest).Pairwise (lexRel v) ∧ List.Perm (insRun v acc rest) (acc ++ rest) := by
  intro rest
  induction rest with
  | nil =>
    intro acc h1 _ _
    rw [insRun]
    exact ⟨h1, by simp⟩
  | cons i t ih =>
    intro acc h1 h2 h3
    rw [insRun]
    rcases List.pairwise_cons.mp h3 with ⟨hit, ht⟩
    have hmax : ∀ j ∈ acc, j < i := fun j hj => h2 j hj i (List.mem_cons_self _ _)
    have h2' : ∀ j ∈ insIdx v i acc, ∀ b ∈ t, j < b := by
      intro j hj b hb
      rcases mem_insIdx.mp hj with rfl | hja
      · exact hit b hb
      · exact h2 j hja b (List.mem_cons_of_mem _ hb)
    obtain ⟨hp, hq⟩ := ih (insIdx v i acc) (insIdx_pairwise h1 hmax) h2' ht
    refine ⟨hp, ?_⟩
    exact (hq.trans ((insIdx_perm v i acc).append_right t)).trans List.perm_middle.symm

theorem aquicksortArg_small (v : List Int) (h : v.length ≤ 16) :
    aquicksortArg v = insRun v [] (List.range v.length) := by
  rw [aquicksortArg]
  by_cases h0 : v.length = 0
  · rw [if_pos h0, h0]
    rfl
  · rw [if_neg h0]
    have hn1 : v.length - 1 + 1 = v.length := by omega
    have e1 : aqsWhile v (v.length - 1 - 0 + 2) (List.range v.length) 0 (v.length - 1)
        (2 * (natLog2 v.length : Int)) [] =
        (.small (List.range v.length) 0 (v.length - 1), 2 * (natLog2 v.length : Int), []) := by
      have hf : v.length - 1 - 0 + 2 = (v.length - 1 - 0 + 1) + 1 := by omega
      rw [hf, aqsWhile, if_neg (by omega)]
    conv_lhs => rw [show 2 * v.length + 4 = 2 * v.length + 3 + 1 from rfl]
    rw [aqsOuter, e1]
    show insSeg v (List.range v.length) 0 (v.length - 1) = _
    rw [insSeg, List.take_zero, List.drop_zero, hn1,
      List.take_of_length_le (by simp),
      List.drop_eq_nil_of_le (by simp), List.append_nil,
      List.nil_append]

theorem getD_range_of_lt {k n : Nat} (h : k < n) : (List.range n).getD k 0 = k := by
  rw [List.getD_eq_getElem?_getD, List.getElem?_range h]
  rfl

theorem range_map_getD (keys : List (Option Int)) :
    (List.range keys.length).map (fun i => (keys.getD i none).getD 0) =
    keys.map (fun k => k.getD 0) := by
  apply List.ext_getElem
  · simp
  · intro i h1 h2
    simp only [List.getElem_map, List.getElem_range]
    rw [List.getD_eq_getElem?_getD, List.getElem?_eq_getElem (by simpa using h2)]
    rfl

theorem getD_keys_lt {keys : List (Option Int)} {i : Nat} (h : i < keys.length) :
    (keys.map (fun k => k.getD 0)).getD i 0 = (keys.getD i none).getD 0 := by
  rw [List.getD_eq_getElem?_getD, List.getD_eq_getElem?_getD, List.getElem?_map,
    List.getElem?_eq_getElem h]
  rfl

theorem nargsort_small (keys : List (Option Int)) (h16 : keys.length ≤ 16)
    (hks : ∀ k ∈ keys, k.isSome = true) :
    nargsort keys = insRun (keys.map (fun k => k.getD 0)) [] (List.range keys.length) := by
  have hks2 : ∀ i ∈ List.range keys.length, ((keys.getD i none).isSome) = true := by
    intro i hi
    rw [List.mem_range] at hi
    rw [List.getD_eq_getElem?_getD, List.getElem?_eq_getElem hi]
    exact hks _ (List.getElem_mem _)
  have hfil1 : (List.range keys.length).filter (fun i => (keys.getD i none).isSome) =
      List.range keys.length := List.filter_eq_self.mpr hks2
  have hfil2 : (List.range keys.length).filter (fun i => (keys.getD i none).isNone) = [] := by
    apply List.filter_eq_nil_iff.mpr
    intro i hi
    have hs := hks2 i hi
    cases hd : keys.getD i none with
    | none => rw [hd] at hs; cases hs
    | some k => simp
  have hWlen : (keys.map (fun k => k.getD 0)).length = keys.length := List.length_map _ _
  have hrange : List.range (keys.map (fun k => k.getD 0)).length = List.range keys.length := by
    rw [hWlen]
  have hperm := (insRun_spec (keys.map (fun k => k.getD 0)) (List.range keys.length) []
      List.Pairwise.nil (by simp) (List.pairwise_lt_range _)).2
  rw [List.nil_append] at hperm
  rw [nargsort, hfil1, hfil2, List.append_nil, range_map_getD,
    aquicksortArg_small _ (by rw [hWlen]; exact h16), hrange]
  refine (List.map_congr_left ?_).trans (List.map_id _)
  intro k hk
  have hklt : k < keys.length := List.mem_range.mp (hperm.mem_iff.mp hk)
  simp only [id]
  exact getD_range_of_lt hklt

set_option maxHeartbeats 2000000 in
/-- C3 counterexample: seventeen findings of equal priority are reordered
by the aggregator sort (pandas default quicksort reaches numpy's partition
step above its 16-element insertion-sort cutoff, which permutes equal
keys), so the claimed stability fails: the output order differs from the
input order although every pair of findings has equal priority. -/
theorem c3_sort_stability_counterexample :
    (∀ f ∈ fs17, f.priority = "HIGH") ∧
    sortFindings fs17 ≠ fs17 ∧
    (sortFindings fs17).map (fun f => f.keyword) =
      [.cs "k00", .cs "k14", .cs "k13", .cs "k12", .cs "k11", .cs "k10", .cs "k09",
       .cs "k15", .cs "k08", .cs "k06", .cs "k05", .cs "k04", .cs "k03", .cs "k02",
       .cs "k01", .cs "k07", .cs "k16"] := by
  decide

/-- C3 amended: for at most sixteen findings (numpy's introsort then runs
its stable insertion sort on the whole key array), the aggregator sort is
exactly the claimed stable ascending sort: the output is the input
reindexed by a permutation `idx` of the positions that is pairwise ordered
by priority rank ascending with ties kept in input order.  With more than
sixteen findings equal-priority findings may be reordered (see the
counterexample). -/
theorem c3_sort_stable_small (fs : List Finding) (h16 : fs.length ≤ 16)
    (hp : ∀ f ∈ fs, (priority_map f.priority).isSome = true) :
    ∃ idx : List Nat,
      sortFindings fs = idx.filterMap (fun i => fs[i]?) ∧
      idx.Perm (List.range fs.length) ∧
      idx.Pairwise (fun i j => findingKey fs i < findingKey fs j ∨
        (findingKey fs i = findingKey fs j ∧ i < j)) := by
  have hlen : (fs.map (fun f => priority_map f.priority)).length = fs.length :=
    List.length_map _ _
  have hks : ∀ k ∈ fs.map (fun f => priority_map f.priority), k.isSome = true := by
    intro k hk
    rw [List.mem_map] at hk
    obtain ⟨f, hf, rfl⟩ := hk
    exact hp f hf
  have hnar := nargsort_small (fs.map (fun f => priority_map f.priority))
    (by rw [hlen]; exact h16) hks
  rw [hlen] at hnar
  set W := (fs.map (fun f => priority_map f.priority)).map (fun k => k.getD 0) with hW
  have hspec := insRun_spec W (List.range fs.length) [] List.Pairwise.nil (by simp)
    (List.pairwise_lt_range _)
  rw [List.nil_append] at hspec
  have hmemlt : ∀ k ∈ insRun W [] (List.range fs.length), k < fs.length := by
    intro k hk
    exact List.mem_range.mp (hspec.2.mem_iff.mp hk)
  have hkey : ∀ i, i < fs.length → keyOf W i = findingKey fs i := by
    intro i hi
    rw [hW, keyOf, findingKey]
    exact getD_keys_lt (by rw [hlen]; exact hi)
  refine ⟨nargsort (fs.map (fun f => priority_map f.priority)), by rw [sortFindings], ?_, ?_⟩
  · rw [hnar]
    exact hspec.2
  · rw [hnar]
    refine hspec.1.imp_of_mem ?_
    intro a b ha hb hab
    rcases hab with h | ⟨he, hlt⟩
    · exact Or.inl (by rw [← hkey a (hmemlt a ha), ← hkey b (hmemlt b hb)]; exact h)
    · exact Or.inr ⟨by rw [← hkey a (hmemlt a ha), ← hkey b (hmemlt b hb)]; exact he, hlt⟩

/-- C3 amended witness: the amended theorem applied to a concrete
three-finding list (two priorities, one tie). -/
theorem c3_sort_stable_small_witness :
    ∃ idx : List Nat,
      sortFindings [fsHigh "a", fsHigh "b", fsHigh "c"] =
        idx.filterMap (fun i => [fsHigh "a", fsHigh "b", fsHigh "c"][i]?) ∧
      idx.Perm (List.range ([fsHigh "a", fsHigh "b", fsHigh "c"] : List Finding).length) ∧
      idx.Pairwise (fun i j =>
        findingKey [fsHigh "a", fsHigh "b", fsHigh "c"] i <
          findingKey [fsHigh "a", fsHigh "b", fsHigh "c"] j ∨
        (findingKey [fsHigh "a", fsHigh "b", fsHigh "c"] i =
          findingKey [fsHigh "a", fsHigh "b", fsHigh "c"] j ∧ i < j)) :=
  c3_sort_stable_small [fsHigh "a", fsHigh "b", fsHigh "c"] (by decide) (by decide)
